import Mathlib

/-!
Verification of the Sample Variant Summarizer of the LucidDNA repository
(`src/app.py`, function `analyze_sample_genome`).

The Python function is shallowly embedded: the VCF reader's output is a
list of record results (a record, or the exception the reader raises while
parsing a line), the file system is an association list from paths to
files, quality scores are rationals, and the blanket `except Exception`
handler is an `Except` error value.  Every failure path of the Python
function returns `None`; the embedding keeps the distinct error paths in
`analyzeE` (whose error constructors name the distinct `st.error` message
sites of the source) and recovers the value actually returned to the
caller with `Except.toOption`.
-/

/-- A per-sample genotype call, as exposed by `vcfpy`'s `Call` objects:
`call.is_variant` and `call.is_het` are the two attributes the source
consults.  A `Call` object is always truthy in Python, so
`if call and call.is_variant` retains a record exactly when the lookup
produced a call whose `is_variant` is true. -/
structure Call where
  is_variant : Bool
  is_het : Bool
deriving DecidableEq, Repr

/-- One VCF data record as the source reads it: `record.CHROM`,
`record.POS`, `record.REF`, `record.ALT` (a list of alternate-allele
objects; the source reads `record.ALT[0].value`, so only the string values
are modelled), `record.QUAL` (absent is Python `None`), and the per-sample
call mapping backing `record.call_for_sample`. -/
structure Record where
  CHROM : String
  POS : Nat
  REF : String
  ALT : List String
  QUAL : Option ℚ
  calls : List (String × Call)
deriving DecidableEq, Repr

/-- `record.call_for_sample.get(sample_id)`: dictionary lookup returning
`None` when the sample has no call object in the record. -/
def Record.callForSample (r : Record) (sampleId : String) : Option Call :=
  (r.calls.find? (fun p => p.1 = sampleId)).map (fun p => p.2)

/-- `record.QUAL if record.QUAL else 0`: Python truthiness maps both
`None` and `0.0` to the default `0`. -/
def Record.effQual (r : Record) : ℚ :=
  match r.QUAL with
  | none => 0
  | some q => if q = 0 then 0 else q

instance {ε α : Type} [DecidableEq ε] [DecidableEq α] :
    DecidableEq (Except ε α) := fun x y =>
  match x, y with
  | .ok a, .ok b =>
    if h : a = b then .isTrue (by rw [h])
    else .isFalse (by intro hc; cases hc; exact h rfl)
  | .error a, .error b =>
    if h : a = b then .isTrue (by rw [h])
    else .isFalse (by intro hc; cases hc; exact h rfl)
  | .ok _, .error _ => .isFalse (by intro hc; cases hc)
  | .error _, .ok _ => .isFalse (by intro hc; cases hc)

/-- A VCF file as consumed by the function: the header's sample names
(`reader.header.samples.names`) and the stream of records produced by
iterating the reader.  An `Except.error` entry stands for the exception
the reader raises on a malformed line, which the source's blanket handler
catches. -/
structure VCFFile where
  samples : List String
  records : List (Except String Record)
deriving DecidableEq, Repr

/-- The file system visible to `os.path.exists` / `vcfpy.Reader.from_path`:
an association of paths to files. -/
def FS := List (String × VCFFile)

/-- Path lookup: `some file` iff the path references an existing file. -/
def FS.lookupFile (fs : FS) (path : String) : Option VCFFile :=
  (fs.find? (fun p => p.1 = path)).map (fun p => p.2)

/-- One entry of the `candidate_variants` buffer: the dict literal built
for a retained record whose quality exceeds the threshold. -/
structure Candidate where
  id : String
  chrom : String
  pos : Nat
  ref : String
  alt : String
  qual : ℚ
  description : String
deriving DecidableEq, Repr

/-- The dict appended to `candidate_variants`, with `alt` the value of
`record.ALT[0]` (passed in separately because the subscript can raise). -/
def mkCandidate (r : Record) (altValue : String) (q : ℚ) : Candidate :=
  { id := r.CHROM ++ ":" ++ toString r.POS
    chrom := r.CHROM
    pos := r.POS
    ref := r.REF
    alt := altValue
    qual := q
    description := "Type: " ++ (if r.REF.length = 1 then "SNP" else "Indel") }

/-- The mutable `stats` dict during the record loop, before the final
ratio and top-list fields are written. -/
structure ScanState where
  total : Nat
  het : Nat
  hom : Nat
  maxQual : ℚ
  candidates : List Candidate
deriving DecidableEq, Repr

/-- `stats` as initialised at the top of the function (together with the
empty `candidate_variants` buffer). -/
def initState : ScanState :=
  { total := 0, het := 0, hom := 0, maxQual := 0, candidates := [] }

/-- The distinct failure paths of the function.  `NotFound` is the
`os.path.exists` check, `UnknownSample` the header-membership check; any
exception raised during the scan (a reader parse error, or the
`IndexError` from `record.ALT[0]` on an empty alternate list) lands in the
blanket `except Exception` handler, modelled as `ScanError`. -/
inductive Failure where
  | NotFound
  | UnknownSample
  | ScanError
deriving DecidableEq, Repr

/-- `stats["total_variants"] += 1` followed by the `is_het` branch that
bumps exactly one of the two zygosity counters. -/
def countCall (call : Call) (st : ScanState) : ScanState :=
  let st1 := { st with total := st.total + 1 }
  if call.is_het then { st1 with het := st1.het + 1 }
  else { st1 with hom := st1.hom + 1 }

/-- `if qual > stats["max_quality"]: stats["max_quality"] = qual`. -/
def updateMaxQual (q : ℚ) (st : ScanState) : ScanState :=
  if q > st.maxQual then { st with maxQual := q } else st

/-- `candidate_variants.append(...)`. -/
def appendCandidate (c : Candidate) (st : ScanState) : ScanState :=
  { st with candidates := st.candidates ++ [c] }

/-- The body of the `for record in reader` loop for one record result:
skip records without a variant call for the sample; otherwise bump the
total, bump exactly one zygosity counter, update the running maximum
quality, and when the quality strictly exceeds 20 append a candidate —
raising (an error) if the alternate-allele list is empty. -/
def step (sampleId : String) (st : ScanState) (rr : Except String Record) :
    Except Failure ScanState :=
  match rr with
  | .error _ => .error .ScanError
  | .ok r =>
    match r.callForSample sampleId with
    | none => .ok st
    | some call =>
      if call.is_variant then
        if r.effQual > 20 then
          match r.ALT[0]? with
          | none => .error .ScanError
          | some a =>
            .ok (appendCandidate (mkCandidate r a r.effQual)
              (updateMaxQual r.effQual (countCall call st)))
        else .ok (updateMaxQual r.effQual (countCall call st))
      else .ok st

/-- The whole record loop: runs `step` over the stream, aborting at the
first raised exception (the source's `for` loop unwinds to the handler,
discarding the accumulated state). -/
def scan (sampleId : String) : ScanState → List (Except String Record) →
    Except Failure ScanState
  | st, [] => .ok st
  | st, rr :: rest =>
    match step sampleId st rr with
    | .ok st1 => scan sampleId st1 rest
    | .error e => .error e

/-- `candidate_variants.sort(key=lambda x: x['qual'], reverse=True)` places
an element before another exactly when its quality is strictly greater;
Python's sort is stable, so ties keep their original relative order.  This
insertion realises that comparison. -/
def insertByQual (c : Candidate) : List Candidate → List Candidate
  | [] => [c]
  | d :: ds => if c.qual ≥ d.qual then c :: d :: ds else d :: insertByQual c ds

/-- The stable descending-by-quality sort of the candidate buffer.  Any
stable sort with the same key agrees with this one, so it embeds the
semantics of Python's `list.sort(key=..., reverse=True)`. -/
def sortQualDesc : List Candidate → List Candidate
  | [] => []
  | c :: cs => insertByQual c (sortQualDesc cs)

/-- The value returned on the successful path: the `stats` dict after the
`top_variants` and `het_ratio` keys are written. -/
structure Stats where
  total_variants : Nat
  heterozygous : Nat
  homozygous : Nat
  max_quality : ℚ
  top_variants : List Candidate
  het_ratio : ℚ
deriving DecidableEq, Repr

/-- `analyze_sample_genome` with the distinct failure paths kept apart:
existence check, header sample check, record scan, then the top-3
selection and the ratio. -/
def analyzeE (fs : FS) (vcfPath sampleId : String) : Except Failure Stats :=
  match fs.lookupFile vcfPath with
  | none => .error .NotFound
  | some file =>
    if sampleId ∈ file.samples then
      match scan sampleId initState file.records with
      | .error e => .error e
      | .ok st =>
        .ok { total_variants := st.total
              heterozygous := st.het
              homozygous := st.hom
              max_quality := st.maxQual
              top_variants := (sortQualDesc st.candidates).take 3
              het_ratio :=
                if st.total > 0 then (st.het : ℚ) / (st.total : ℚ) else 0 }
    else .error .UnknownSample

/-- The value `analyze_sample_genome` actually hands back to its caller:
every failure path executes `return None`. -/
def analyze_sample_genome (fs : FS) (vcfPath sampleId : String) :
    Option Stats :=
  (analyzeE fs vcfPath sampleId).toOption

/-- The effective qualities of the retained variant calls of a record
stream, in file order (a parse-error entry contributes nothing; on a
successful scan none occurs before the end). -/
def retainedQuals (sampleId : String) (rs : List (Except String Record)) :
    List ℚ :=
  rs.filterMap (fun rr =>
    match rr with
    | .error _ => none
    | .ok r =>
      match r.callForSample sampleId with
      | none => none
      | some call => if call.is_variant then some r.effQual else none)

/-- The candidate entries generated by a record stream, in file order:
one for each retained call whose effective quality strictly exceeds 20
and whose alternate list is non-empty. -/
def candidatesOf (sampleId : String) (rs : List (Except String Record)) :
    List Candidate :=
  rs.filterMap (fun rr =>
    match rr with
    | .error _ => none
    | .ok r =>
      match r.callForSample sampleId with
      | none => none
      | some call =>
        if call.is_variant then
          if r.effQual > 20 then
            (r.ALT[0]?).map (fun a => mkCandidate r a r.effQual)
          else none
        else none)

/-! ### Concrete inputs used to instantiate the theorems -/

/-- A well-formed record: SNP-shaped, high quality, calls for both header
samples. -/
def exRec1 : Record :=
  { CHROM := "chr1", POS := 100, REF := "A", ALT := ["T"], QUAL := some 30,
    calls := [("A", { is_variant := true, is_het := true }),
              ("B", { is_variant := true, is_het := false })] }

/-- A low-quality record (below the threshold of 20). -/
def exRec2 : Record :=
  { CHROM := "chr1", POS := 200, REF := "C", ALT := ["G"], QUAL := some 10,
    calls := [("A", { is_variant := true, is_het := true })] }

/-- An insertion-shaped record (first alternate allele of length 2)
with a length-1 reference allele and high quality. -/
def exRec3 : Record :=
  { CHROM := "chr2", POS := 300, REF := "G", ALT := ["GA"], QUAL := some 50,
    calls := [("A", { is_variant := true, is_het := false })] }

/-- A small well-formed input file with two header samples. -/
def exFile : VCFFile :=
  { samples := ["A", "B"], records := [.ok exRec1, .ok exRec2, .ok exRec3] }

/-- A file system exposing `exFile` at one path. -/
def exFS : FS := [("data.vcf", exFile)]

/-- The summary the analysis computes for sample `A` of `exFile`. -/
def exStatsA : Stats :=
  { total_variants := 3, heterozygous := 2, homozygous := 1,
    max_quality := 50,
    top_variants := [mkCandidate exRec3 "GA" 50, mkCandidate exRec1 "T" 30],
    het_ratio := ((2 : Nat) : ℚ) / ((3 : Nat) : ℚ) }

/-- A record whose alternate-allele list is empty while its quality
exceeds the threshold: reading `ALT[0]` raises. -/
def exRecBad : Record :=
  { CHROM := "chr3", POS := 400, REF := "A", ALT := [], QUAL := some 30,
    calls := [("A", { is_variant := true, is_het := true })] }

/-- A file containing only the aborting record. -/
def exFileBad : VCFFile :=
  { samples := ["A"], records := [.ok exRecBad] }

/-- A file system exposing the aborting file. -/
def exFSBad : FS := [("bad.vcf", exFileBad)]

/-! ### Lemmas about the per-record helpers -/

theorem countCall_total (call : Call) (st : ScanState) :
    (countCall call st).total = st.total + 1 := by
  unfold countCall; split <;> rfl

theorem countCall_counts (call : Call) (st : ScanState) :
    (countCall call st).het + (countCall call st).hom = st.het + st.hom + 1 := by
  unfold countCall; split <;> simp <;> omega

theorem countCall_maxQual (call : Call) (st : ScanState) :
    (countCall call st).maxQual = st.maxQual := by
  unfold countCall; split <;> rfl

theorem countCall_candidates (call : Call) (st : ScanState) :
    (countCall call st).candidates = st.candidates := by
  unfold countCall; split <;> rfl

theorem updateMaxQual_maxQual (q : ℚ) (st : ScanState) :
    (updateMaxQual q st).maxQual = max st.maxQual q := by
  unfold updateMaxQual
  split
  · next hlt => exact (max_eq_right (le_of_lt hlt)).symm
  · next hlt => exact (max_eq_left (not_lt.mp hlt)).symm

theorem updateMaxQual_total (q : ℚ) (st : ScanState) :
    (updateMaxQual q st).total = st.total := by
  unfold updateMaxQual; split <;> rfl

theorem updateMaxQual_het (q : ℚ) (st : ScanState) :
    (updateMaxQual q st).het = st.het := by
  unfold updateMaxQual; split <;> rfl

theorem updateMaxQual_hom (q : ℚ) (st : ScanState) :
    (updateMaxQual q st).hom = st.hom := by
  unfold updateMaxQual; split <;> rfl

theorem updateMaxQual_candidates (q : ℚ) (st : ScanState) :
    (updateMaxQual q st).candidates = st.candidates := by
  unfold updateMaxQual; split <;> rfl

theorem appendCandidate_fields (c : Candidate) (st : ScanState) :
    (appendCandidate c st).total = st.total ∧
      (appendCandidate c st).het = st.het ∧
      (appendCandidate c st).hom = st.hom ∧
      (appendCandidate c st).maxQual = st.maxQual ∧
      (appendCandidate c st).candidates = st.candidates ++ [c] := by
  simp [appendCandidate]

/-! ### Lemmas about one loop iteration -/

theorem step_ok_inv (sampleId : String) (st : ScanState)
    (rr : Except String Record) (st' : ScanState)
    (h : step sampleId st rr = .ok st') :
    ∃ r, rr = Except.ok r ∧
      ((r.callForSample sampleId = none ∧ st' = st) ∨
       (∃ call, r.callForSample sampleId = some call ∧
          call.is_variant = false ∧ st' = st) ∨
       (∃ call, r.callForSample sampleId = some call ∧
          call.is_variant = true ∧ ¬ r.effQual > 20 ∧
          st' = updateMaxQual r.effQual (countCall call st)) ∨
       (∃ call a, r.callForSample sampleId = some call ∧
          call.is_variant = true ∧ r.effQual > 20 ∧ r.ALT[0]? = some a ∧
          st' = appendCandidate (mkCandidate r a r.effQual)
            (updateMaxQual r.effQual (countCall call st)))) := by
  cases rr with
  | error msg => exact Except.noConfusion h
  | ok r =>
    refine ⟨r, rfl, ?_⟩
    dsimp only [step] at h
    split at h
    · rename_i heq
      exact Or.inl ⟨heq, (Except.ok.inj h).symm⟩
    · rename_i call heq
      split at h
      · rename_i hvar
        split at h
        · rename_i hq
          split at h
          · exact Except.noConfusion h
          · rename_i a halt
            exact Or.inr (Or.inr (Or.inr
              ⟨call, a, heq, hvar, hq, halt, (Except.ok.inj h).symm⟩))
        · rename_i hq
          exact Or.inr (Or.inr (Or.inl
            ⟨call, heq, hvar, hq, (Except.ok.inj h).symm⟩))
      · rename_i hvar
        simp only [Bool.not_eq_true] at hvar
        exact Or.inr (Or.inl ⟨call, heq, hvar, (Except.ok.inj h).symm⟩)

theorem step_error_eq (sampleId : String) (st : ScanState)
    (rr : Except String Record) (e : Failure)
    (h : step sampleId st rr = .error e) : e = .ScanError := by
  cases rr with
  | error msg => exact (Except.error.inj h).symm
  | ok r =>
    dsimp only [step] at h
    iterate 4 all_goals try split at h
    all_goals
      first
      | exact Except.noConfusion h
      | exact (Except.error.inj h).symm

theorem step_counts (sampleId : String) (st : ScanState)
    (rr : Except String Record) (st' : ScanState)
    (h : step sampleId st rr = .ok st') :
    st'.het + st'.hom + st.total = st.het + st.hom + st'.total := by
  obtain ⟨r, hr, hcase⟩ := step_ok_inv sampleId st rr st' h
  rcases hcase with ⟨hnone, rfl⟩ | ⟨call, hsome, hvar, rfl⟩ |
    ⟨call, hsome, hvar, hq, rfl⟩ | ⟨call, a, hsome, hvar, hq, halt, rfl⟩
  · omega
  · omega
  · have h2 := updateMaxQual_total r.effQual (countCall call st)
    have h3 := updateMaxQual_het r.effQual (countCall call st)
    have h4 := updateMaxQual_hom r.effQual (countCall call st)
    have h5 := countCall_total call st
    have h6 := countCall_counts call st
    omega
  · have h1 := appendCandidate_fields (mkCandidate r a r.effQual)
      (updateMaxQual r.effQual (countCall call st))
    have h2 := updateMaxQual_total r.effQual (countCall call st)
    have h3 := updateMaxQual_het r.effQual (countCall call st)
    have h4 := updateMaxQual_hom r.effQual (countCall call st)
    have h5 := countCall_total call st
    have h6 := countCall_counts call st
    omega

/-! ### Decomposition of the per-stream projections -/

theorem retainedQuals_nil (sampleId : String) :
    retainedQuals sampleId [] = [] := rfl

theorem retainedQuals_cons_error (sampleId msg : String)
    (l : List (Except String Record)) :
    retainedQuals sampleId (.error msg :: l) = retainedQuals sampleId l := by
  simp [retainedQuals]

theorem retainedQuals_cons_nocall (sampleId : String) (r : Record)
    (l : List (Except String Record))
    (hnone : r.callForSample sampleId = none) :
    retainedQuals sampleId (.ok r :: l) = retainedQuals sampleId l := by
  simp [retainedQuals, hnone]

theorem retainedQuals_cons_notvariant (sampleId : String) (r : Record)
    (call : Call) (l : List (Except String Record))
    (hsome : r.callForSample sampleId = some call)
    (hvar : call.is_variant = false) :
    retainedQuals sampleId (.ok r :: l) = retainedQuals sampleId l := by
  simp [retainedQuals, hsome, hvar]

theorem retainedQuals_cons_variant (sampleId : String) (r : Record)
    (call : Call) (l : List (Except String Record))
    (hsome : r.callForSample sampleId = some call)
    (hvar : call.is_variant = true) :
    retainedQuals sampleId (.ok r :: l) =
      r.effQual :: retainedQuals sampleId l := by
  simp [retainedQuals, hsome, hvar]

theorem candidatesOf_nil (sampleId : String) :
    candidatesOf sampleId [] = [] := rfl

theorem candidatesOf_cons_error (sampleId msg : String)
    (l : List (Except String Record)) :
    candidatesOf sampleId (.error msg :: l) = candidatesOf sampleId l := by
  simp [candidatesOf]

theorem candidatesOf_cons_nocall (sampleId : String) (r : Record)
    (l : List (Except String Record))
    (hnone : r.callForSample sampleId = none) :
    candidatesOf sampleId (.ok r :: l) = candidatesOf sampleId l := by
  simp [candidatesOf, hnone]

theorem candidatesOf_cons_notvariant (sampleId : String) (r : Record)
    (call : Call) (l : List (Except String Record))
    (hsome : r.callForSample sampleId = some call)
    (hvar : call.is_variant = false) :
    candidatesOf sampleId (.ok r :: l) = candidatesOf sampleId l := by
  simp [candidatesOf, hsome, hvar]

theorem candidatesOf_cons_lowqual (sampleId : String) (r : Record)
    (call : Call) (l : List (Except String Record))
    (hsome : r.callForSample sampleId = some call)
    (hvar : call.is_variant = true) (hq : ¬ r.effQual > 20) :
    candidatesOf sampleId (.ok r :: l) = candidatesOf sampleId l := by
  simp [candidatesOf, hsome, hvar, hq]

theorem candidatesOf_cons_highqual (sampleId : String) (r : Record)
    (call : Call) (a : String) (l : List (Except String Record))
    (hsome : r.callForSample sampleId = some call)
    (hvar : call.is_variant = true) (hq : r.effQual > 20)
    (halt : r.ALT[0]? = some a) :
    candidatesOf sampleId (.ok r :: l) =
      mkCandidate r a r.effQual :: candidatesOf sampleId l := by
  simp [candidatesOf, hsome, hvar, hq, halt]

/-! ### Lemmas about the whole scan -/

theorem scan_error_eq (sampleId : String) (l : List (Except String Record)) :
    ∀ st e, scan sampleId st l = .error e → e = .ScanError := by
  induction l with
  | nil => intro st e h; exact Except.noConfusion h
  | cons rr rest ih =>
    intro st e h
    simp only [scan] at h
    cases hstep : step sampleId st rr with
    | error e1 =>
      rw [hstep] at h
      cases Except.error.inj h
      exact step_error_eq sampleId st rr e hstep
    | ok st1 =>
      rw [hstep] at h
      exact ih st1 e h

theorem scan_counts (sampleId : String) (l : List (Except String Record)) :
    ∀ st st', scan sampleId st l = .ok st' →
      st'.het + st'.hom + st.total = st.het + st.hom + st'.total := by
  induction l with
  | nil => intro st st' h; cases Except.ok.inj h; omega
  | cons rr rest ih =>
    intro st st' h
    simp only [scan] at h
    cases hstep : step sampleId st rr with
    | error e1 => rw [hstep] at h; exact Except.noConfusion h
    | ok st1 =>
      rw [hstep] at h
      have h1 := ih st1 st' h
      have h2 := step_counts sampleId st rr st1 hstep
      omega

theorem scan_maxQual (sampleId : String) (l : List (Except String Record)) :
    ∀ st st', scan sampleId st l = .ok st' →
      st'.maxQual = (retainedQuals sampleId l).foldl max st.maxQual := by
  induction l with
  | nil => intro st st' h; cases Except.ok.inj h; rfl
  | cons rr rest ih =>
    intro st st' h
    simp only [scan] at h
    cases hstep : step sampleId st rr with
    | error e1 => rw [hstep] at h; exact Except.noConfusion h
    | ok st1 =>
      rw [hstep] at h
      have hrec := ih st1 st' h
      obtain ⟨r, hr, hcase⟩ := step_ok_inv sampleId st rr st1 hstep
      subst hr
      rcases hcase with ⟨hnone, rfl⟩ | ⟨call, hsome, hvar, rfl⟩ |
        ⟨call, hsome, hvar, hq, rfl⟩ | ⟨call, a, hsome, hvar, hq, halt, rfl⟩
      · rw [retainedQuals_cons_nocall sampleId r rest hnone]
        exact hrec
      · rw [retainedQuals_cons_notvariant sampleId r call rest hsome hvar]
        exact hrec
      · rw [retainedQuals_cons_variant sampleId r call rest hsome hvar,
          List.foldl_cons]
        rw [updateMaxQual_maxQual, countCall_maxQual] at hrec
        exact hrec
      · rw [retainedQuals_cons_variant sampleId r call rest hsome hvar,
          List.foldl_cons]
        rw [(appendCandidate_fields (mkCandidate r a r.effQual)
            (updateMaxQual r.effQual (countCall call st))).2.2.2.1,
          updateMaxQual_maxQual, countCall_maxQual] at hrec
        exact hrec

theorem scan_candidates (sampleId : String)
    (l : List (Except String Record)) :
    ∀ st st', scan sampleId st l = .ok st' →
      st'.candidates = st.candidates ++ candidatesOf sampleId l := by
  induction l with
  | nil => intro st st' h; cases Except.ok.inj h; simp [candidatesOf_nil]
  | cons rr rest ih =>
    intro st st' h
    simp only [scan] at h
    cases hstep : step sampleId st rr with
    | error e1 => rw [hstep] at h; exact Except.noConfusion h
    | ok st1 =>
      rw [hstep] at h
      have hrec := ih st1 st' h
      obtain ⟨r, hr, hcase⟩ := step_ok_inv sampleId st rr st1 hstep
      subst hr
      rcases hcase with ⟨hnone, rfl⟩ | ⟨call, hsome, hvar, rfl⟩ |
        ⟨call, hsome, hvar, hq, rfl⟩ | ⟨call, a, hsome, hvar, hq, halt, rfl⟩
      · rw [candidatesOf_cons_nocall sampleId r rest hnone]
        exact hrec
      · rw [candidatesOf_cons_notvariant sampleId r call rest hsome hvar]
        exact hrec
      · rw [candidatesOf_cons_lowqual sampleId r call rest hsome hvar hq]
        rw [updateMaxQual_candidates, countCall_candidates] at hrec
        exact hrec
      · rw [candidatesOf_cons_highqual sampleId r call a rest hsome hvar hq halt]
        rw [(appendCandidate_fields (mkCandidate r a r.effQual)
            (updateMaxQual r.effQual (countCall call st))).2.2.2.2,
          updateMaxQual_candidates, countCall_candidates] at hrec
        simp only [hrec, List.append_assoc, List.singleton_append]

/-! ### Lemmas about the stable descending sort -/

theorem insertByQual_perm (c : Candidate) (l : List Candidate) :
    (insertByQual c l).Perm (c :: l) := by
  induction l with
  | nil => exact List.Perm.refl _
  | cons d ds ih =>
    unfold insertByQual
    split
    · exact List.Perm.refl _
    · exact List.Perm.trans (List.Perm.cons d ih) (List.Perm.swap c d ds)

theorem sortQualDesc_perm (l : List Candidate) :
    (sortQualDesc l).Perm l := by
  induction l with
  | nil => exact List.Perm.refl _
  | cons c cs ih =>
    exact List.Perm.trans (insertByQual_perm c (sortQualDesc cs))
      (List.Perm.cons c ih)

theorem mem_insertByQual (x c : Candidate) (l : List Candidate) :
    x ∈ insertByQual c l ↔ x = c ∨ x ∈ l := by
  rw [(insertByQual_perm c l).mem_iff]
  exact List.mem_cons

theorem insertByQual_pairwise (c : Candidate) (l : List Candidate)
    (h : l.Pairwise (fun a b => b.qual ≤ a.qual)) :
    (insertByQual c l).Pairwise (fun a b => b.qual ≤ a.qual) := by
  induction l with
  | nil => exact List.pairwise_singleton _ c
  | cons d ds ih =>
    rw [List.pairwise_cons] at h
    obtain ⟨hd, hds⟩ := h
    unfold insertByQual
    split
    · rename_i hcd
      rw [List.pairwise_cons]
      refine ⟨?_, List.pairwise_cons.mpr ⟨hd, hds⟩⟩
      intro e he
      rcases List.mem_cons.mp he with rfl | he
      · exact hcd
      · exact le_trans (hd e he) hcd
    · rename_i hcd
      rw [List.pairwise_cons]
      refine ⟨?_, ih hds⟩
      intro e he
      rcases (mem_insertByQual e c ds).mp he with rfl | he
      · exact le_of_lt (lt_of_not_ge hcd)
      · exact hd e he

theorem sortQualDesc_pairwise (l : List Candidate) :
    (sortQualDesc l).Pairwise (fun a b => b.qual ≤ a.qual) := by
  induction l with
  | nil => exact List.Pairwise.nil
  | cons c cs ih => exact insertByQual_pairwise c (sortQualDesc cs) ih

theorem filter_insertByQual (c : Candidate) (l : List Candidate) (q : ℚ) :
    (insertByQual c l).filter (fun d => decide (d.qual = q)) =
      if c.qual = q then c :: l.filter (fun d => decide (d.qual = q))
      else l.filter (fun d => decide (d.qual = q)) := by
  induction l with
  | nil =>
    by_cases hc : c.qual = q <;> simp [insertByQual, List.filter_cons, hc]
  | cons d ds ih =>
    unfold insertByQual
    split
    · rename_i hcd
      by_cases hc : c.qual = q <;> simp [List.filter_cons, hc]
    · rename_i hcd
      have hdc : d.qual > c.qual := lt_of_not_ge hcd
      by_cases hc : c.qual = q
      · have hdq : ¬ d.qual = q := by
          rw [← hc]; exact ne_of_gt hdc
        simp [List.filter_cons, hc, hdq, ih]
      · simp only [List.filter_cons, ih, if_neg hc]

theorem filter_sortQualDesc (l : List Candidate) (q : ℚ) :
    (sortQualDesc l).filter (fun d => decide (d.qual = q)) =
      l.filter (fun d => decide (d.qual = q)) := by
  induction l with
  | nil => rfl
  | cons c cs ih =>
    show (insertByQual c (sortQualDesc cs)).filter _ = _
    rw [filter_insertByQual]
    by_cases hc : c.qual = q
    · simp [List.filter_cons, hc, ih]
    · simp [List.filter_cons, hc, ih]

/-! ### Lemmas about running maxima -/

theorem le_foldl_max (l : List ℚ) : ∀ a : ℚ, a ≤ l.foldl max a := by
  induction l with
  | nil => intro a; exact le_refl a
  | cons x xs ih =>
    intro a
    exact le_trans (le_max_left a x) (ih (max a x))

theorem mem_le_foldl_max (l : List ℚ) :
    ∀ a q : ℚ, q ∈ l → q ≤ l.foldl max a := by
  induction l with
  | nil => intro a q hq; exact absurd hq (List.not_mem_nil q)
  | cons x xs ih =>
    intro a q hq
    rcases List.mem_cons.mp hq with rfl | hq
    · exact le_trans (le_max_right a q) (le_foldl_max xs (max a q))
    · exact ih (max a x) q hq

theorem foldl_max_eq_or_mem (l : List ℚ) :
    ∀ a : ℚ, l.foldl max a = a ∨ l.foldl max a ∈ l := by
  induction l with
  | nil => intro a; exact Or.inl rfl
  | cons x xs ih =>
    intro a
    rcases ih (max a x) with h | h
    · rw [List.foldl_cons, h]
      rcases max_choice a x with h1 | h1
      · exact Or.inl h1
      · exact Or.inr (by rw [h1]; exact List.mem_cons_self x xs)
    · exact Or.inr (List.mem_cons_of_mem x h)

/-! ### Inversion of a successful analysis -/

theorem analyzeE_ok_inv (fs : FS) (vcfPath sampleId : String) (stats : Stats)
    (h : analyzeE fs vcfPath sampleId = .ok stats) :
    ∃ file st, fs.lookupFile vcfPath = some file ∧
      sampleId ∈ file.samples ∧
      scan sampleId initState file.records = .ok st ∧
      stats.total_variants = st.total ∧
      stats.heterozygous = st.het ∧
      stats.homozygous = st.hom ∧
      stats.max_quality = st.maxQual ∧
      stats.top_variants = (sortQualDesc st.candidates).take 3 ∧
      stats.het_ratio =
        (if st.total > 0 then (st.het : ℚ) / (st.total : ℚ) else 0) := by
  unfold analyzeE at h
  split at h
  · exact Except.noConfusion h
  · rename_i file hfile
    split at h
    · rename_i hmem
      split at h
      · rename_i e hscan
        exact Except.noConfusion h
      · rename_i st hscan
        refine ⟨file, st, hfile, hmem, hscan, ?_⟩
        have hst := (Except.ok.inj h).symm
        subst hst
        exact ⟨rfl, rfl, rfl, rfl, rfl, rfl⟩
    · exact Except.noConfusion h

/-! ### Provenance of candidate entries -/

theorem candidatesOf_shape (sampleId : String)
    (rs : List (Except String Record)) (c : Candidate)
    (hc : c ∈ candidatesOf sampleId rs) :
    ∃ r a, c = mkCandidate r a r.effQual := by
  unfold candidatesOf at hc
  obtain ⟨rr, hrr, hf⟩ := List.mem_filterMap.mp hc
  cases rr with
  | error msg => simp at hf
  | ok r =>
    dsimp only at hf
    cases hcall : r.callForSample sampleId with
    | none => rw [hcall] at hf; simp at hf
    | some call =>
      rw [hcall] at hf
      by_cases hvar : call.is_variant = true
      · by_cases hq : r.effQual > 20
        · simp only [hvar, if_pos, hq, if_true] at hf
          obtain ⟨a, _, hca⟩ := Option.map_eq_some'.mp hf
          exact ⟨r, a, hca.symm⟩
        · simp [hvar, hq] at hf
      · simp [hvar] at hf

/-! ### A record that always aborts the scan -/

theorem step_emptyAlt (sampleId : String) (r : Record) (call : Call)
    (hcall : r.callForSample sampleId = some call)
    (hvar : call.is_variant = true) (hq : r.effQual > 20)
    (halt : r.ALT = []) :
    ∀ st, step sampleId st (.ok r) = .error .ScanError := by
  intro st
  simp [step, hcall, hvar, hq, halt]

theorem scan_mem_bad (sampleId : String) (l : List (Except String Record))
    (rr : Except String Record) (hmem : rr ∈ l)
    (hbad : ∀ st, step sampleId st rr = .error .ScanError) :
    ∀ st st', scan sampleId st l ≠ .ok st' := by
  induction l with
  | nil => exact absurd hmem (List.not_mem_nil rr)
  | cons y ys ih =>
    intro st st' h
    simp only [scan] at h
    cases hstep : step sampleId st y with
    | error e => rw [hstep] at h; exact Except.noConfusion h
    | ok st1 =>
      rw [hstep] at h
      rcases List.mem_cons.mp hmem with rfl | hmem2
      · rw [hbad st] at hstep; exact Except.noConfusion hstep
      · exact ih hmem2 st1 st' h

/-! ### The claims -/

theorem mkCandidate_ref (r : Record) (a : String) (q : ℚ) :
    (mkCandidate r a q).ref = r.REF := rfl

theorem mkCandidate_description (r : Record) (a : String) (q : ℚ) :
    (mkCandidate r a q).description =
      if r.REF.length = 1 then "Type: SNP" else "Type: Indel" := by
  show "Type: " ++ (if r.REF.length = 1 then "SNP" else "Indel") = _
  by_cases hlen : r.REF.length = 1
  · rw [if_pos hlen, if_pos hlen]; decide
  · rw [if_neg hlen, if_neg hlen]; decide

/-- Claim C1: for every successful analysis, each retained call lands in
exactly one zygosity bucket, so the heterozygous and homozygous counters
sum to the total variant count. -/
theorem claim_counts_partition (fs : FS) (vcfPath sampleId : String)
    (stats : Stats) (h : analyzeE fs vcfPath sampleId = .ok stats) :
    stats.heterozygous + stats.homozygous = stats.total_variants := by
  obtain ⟨file, st, hfile, hmem, hscan, h1, h2, h3, h4, h5, h6⟩ :=
    analyzeE_ok_inv fs vcfPath sampleId stats h
  have hc := scan_counts sampleId file.records initState st hscan
  simp only [initState] at hc
  omega

/-- Witness for claim C1 at a concrete file and sample. -/
theorem claim_counts_partition_witness :
    exStatsA.heterozygous + exStatsA.homozygous = exStatsA.total_variants :=
  claim_counts_partition exFS "data.vcf" "A" exStatsA rfl

/-- Claim C2: the heterozygosity ratio of a successful analysis is 0 when
the total variant count is 0 and is otherwise exactly the heterozygous
count divided by the total count. -/
theorem claim_het_ratio (fs : FS) (vcfPath sampleId : String)
    (stats : Stats) (h : analyzeE fs vcfPath sampleId = .ok stats) :
    stats.het_ratio =
      if stats.total_variants = 0 then 0
      else (stats.heterozygous : ℚ) / (stats.total_variants : ℚ) := by
  obtain ⟨file, st, hfile, hmem, hscan, h1, h2, h3, h4, h5, h6⟩ :=
    analyzeE_ok_inv fs vcfPath sampleId stats h
  rw [h6, h1, h2]
  rcases Nat.eq_zero_or_pos st.total with h0 | h0
  · simp [h0]
  · rw [if_pos h0, if_neg (Nat.pos_iff_ne_zero.mp h0)]

/-- Witness for claim C2 at a concrete file and sample. -/
theorem claim_het_ratio_witness :
    exStatsA.het_ratio =
      if exStatsA.total_variants = 0 then 0
      else (exStatsA.heterozygous : ℚ) / (exStatsA.total_variants : ℚ) :=
  claim_het_ratio exFS "data.vcf" "A" exStatsA rfl

/-- Claim C3: the top-variant list of a successful analysis is the
3-element prefix of the stable descending-by-quality ordering of the
candidate entries (the retained calls whose quality strictly exceeds 20):
its length is `min 3` the number of candidates, it is sorted by
non-increasing quality, each member is a candidate, and the ordering is a
permutation of the candidates that preserves the file order within each
quality tie. -/
theorem claim_top_variants (fs : FS) (vcfPath sampleId : String)
    (file : VCFFile) (stats : Stats)
    (hfile : fs.lookupFile vcfPath = some file)
    (h : analyzeE fs vcfPath sampleId = .ok stats) :
    stats.top_variants =
      (sortQualDesc (candidatesOf sampleId file.records)).take 3 ∧
    stats.top_variants.length =
      min 3 (candidatesOf sampleId file.records).length ∧
    stats.top_variants.Pairwise (fun a b => b.qual ≤ a.qual) ∧
    (∀ c ∈ stats.top_variants, c ∈ candidatesOf sampleId file.records) ∧
    (sortQualDesc (candidatesOf sampleId file.records)).Perm
      (candidatesOf sampleId file.records) ∧
    ∀ q : ℚ,
      (sortQualDesc (candidatesOf sampleId file.records)).filter
          (fun c => decide (c.qual = q)) =
        (candidatesOf sampleId file.records).filter
          (fun c => decide (c.qual = q)) := by
  obtain ⟨file', st, hfile', hmem, hscan, h1, h2, h3, h4, h5, h6⟩ :=
    analyzeE_ok_inv fs vcfPath sampleId stats h
  rw [hfile] at hfile'
  obtain rfl := Option.some.inj hfile'
  have hcands := scan_candidates sampleId file.records initState st hscan
  simp only [initState, List.nil_append] at hcands
  rw [hcands] at h5
  refine ⟨h5, ?_, ?_, ?_, sortQualDesc_perm _, fun q => filter_sortQualDesc _ q⟩
  · rw [h5, List.length_take, (sortQualDesc_perm _).length_eq]
  · rw [h5]
    exact List.Pairwise.sublist (List.take_sublist 3 _) (sortQualDesc_pairwise _)
  · intro c hc
    rw [h5] at hc
    exact (sortQualDesc_perm _).mem_iff.mp (List.take_subset 3 _ hc)

/-- Witness for claim C3 at a concrete file and sample. -/
theorem claim_top_variants_witness :
    exStatsA.top_variants =
      (sortQualDesc (candidatesOf "A" exFile.records)).take 3 ∧
    exStatsA.top_variants.length =
      min 3 (candidatesOf "A" exFile.records).length ∧
    exStatsA.top_variants.Pairwise (fun a b => b.qual ≤ a.qual) ∧
    (∀ c ∈ exStatsA.top_variants, c ∈ candidatesOf "A" exFile.records) ∧
    (sortQualDesc (candidatesOf "A" exFile.records)).Perm
      (candidatesOf "A" exFile.records) ∧
    ∀ q : ℚ,
      (sortQualDesc (candidatesOf "A" exFile.records)).filter
          (fun c => decide (c.qual = q)) =
        (candidatesOf "A" exFile.records).filter
          (fun c => decide (c.qual = q)) :=
  claim_top_variants exFS "data.vcf" "A" exFile exStatsA rfl rfl

/-- Claim C4 as stated is false on the code: the classification reads
only the reference-allele length, never the alternate-allele length, so a
length-1 reference with a length-2 first alternate allele (an insertion)
is still labelled `SNP`.  The negation of the claim is proved at the
concrete input `exFS`. -/
theorem claim_snp_iff_counterexample :
    ¬ ∀ (fs : FS) (vcfPath sampleId : String) (stats : Stats),
        analyzeE fs vcfPath sampleId = .ok stats →
        ∀ c ∈ stats.top_variants,
          (c.description = "Type: SNP" ↔
            (c.ref.length = 1 ∧ c.alt.length = 1)) := by
  intro hclaim
  have hc := hclaim exFS "data.vcf" "A" exStatsA rfl
    (mkCandidate exRec3 "GA" 50) (by decide)
  have hdesc : (mkCandidate exRec3 "GA" 50).description = "Type: SNP" := by
    decide
  have halt := (hc.mp hdesc).2
  exact absurd halt (by decide)

/-- Claim C4 amended: a top-list entry is classified `SNP` exactly when
its reference allele has length 1, and `Indel` otherwise; the alternate
allele's length is not consulted. -/
theorem claim_snp_iff_ref_only (fs : FS) (vcfPath sampleId : String)
    (stats : Stats) (h : analyzeE fs vcfPath sampleId = .ok stats) :
    ∀ c ∈ stats.top_variants,
      (c.description = "Type: SNP" ↔ c.ref.length = 1) ∧
      (c.description = "Type: Indel" ↔ ¬ c.ref.length = 1) := by
  intro c hc
  obtain ⟨file, st, hfile, hmem, hscan, h1, h2, h3, h4, h5, h6⟩ :=
    analyzeE_ok_inv fs vcfPath sampleId stats h
  have hcands := scan_candidates sampleId file.records initState st hscan
  simp only [initState, List.nil_append] at hcands
  rw [h5, hcands] at hc
  have hmemc : c ∈ candidatesOf sampleId file.records :=
    (sortQualDesc_perm _).mem_iff.mp (List.take_subset 3 _ hc)
  obtain ⟨r, a, rfl⟩ := candidatesOf_shape sampleId file.records c hmemc
  rw [mkCandidate_description, mkCandidate_ref]
  by_cases hlen : r.REF.length = 1
  · rw [if_pos hlen]
    exact ⟨⟨fun _ => hlen, fun _ => rfl⟩,
      ⟨fun hcontra => absurd hcontra (by decide),
       fun hcontra => absurd hlen hcontra⟩⟩
  · rw [if_neg hlen]
    exact ⟨⟨fun hcontra => absurd hcontra (by decide),
       fun hl => absurd hl hlen⟩,
      ⟨fun _ => hlen, fun _ => rfl⟩⟩

/-- Witness for the amended claim C4 at a concrete top-list entry. -/
theorem claim_snp_iff_ref_only_witness :
    ((mkCandidate exRec3 "GA" 50).description = "Type: SNP" ↔
      (mkCandidate exRec3 "GA" 50).ref.length = 1) ∧
    ((mkCandidate exRec3 "GA" 50).description = "Type: Indel" ↔
      ¬ (mkCandidate exRec3 "GA" 50).ref.length = 1) :=
  claim_snp_iff_ref_only exFS "data.vcf" "A" exStatsA rfl
    (mkCandidate exRec3 "GA" 50) (by decide)

/-- Claim C5: the analysis fails with `NotFound` exactly when the path
does not reference an existing file, and with `UnknownSample` exactly when
the file exists but the sample is not among the header's sample columns;
an `Except.error` result carries no summary by construction. -/
theorem claim_failure_kinds (fs : FS) (vcfPath sampleId : String) :
    (analyzeE fs vcfPath sampleId = .error .NotFound ↔
      fs.lookupFile vcfPath = none) ∧
    (analyzeE fs vcfPath sampleId = .error .UnknownSample ↔
      ∃ file, fs.lookupFile vcfPath = some file ∧
        sampleId ∉ file.samples) := by
  unfold analyzeE
  cases hfile : fs.lookupFile vcfPath with
  | none => simp
  | some file =>
    by_cases hmem : sampleId ∈ file.samples
    · cases hscan : scan sampleId initState file.records with
      | ok st => simp [hmem, hscan]
      | error e =>
        have he := scan_error_eq sampleId file.records initState e hscan
        subst he
        simp [hmem, hscan]
    · simp [hmem]

/-- Claim C6: on success, the reported maximum quality is the running
maximum, started at 0, of the effective qualities (absent quality read as
0) of the retained calls: it bounds every retained quality from above and
is either 0 or one of them, and being a total rational it is never null. -/
theorem claim_max_quality (fs : FS) (vcfPath sampleId : String)
    (file : VCFFile) (stats : Stats)
    (hfile : fs.lookupFile vcfPath = some file)
    (h : analyzeE fs vcfPath sampleId = .ok stats) :
    stats.max_quality = (retainedQuals sampleId file.records).foldl max 0 ∧
    (∀ q ∈ retainedQuals sampleId file.records, q ≤ stats.max_quality) ∧
    (stats.max_quality = 0 ∨
      stats.max_quality ∈ retainedQuals sampleId file.records) := by
  obtain ⟨file', st, hfile', hmem, hscan, h1, h2, h3, h4, h5, h6⟩ :=
    analyzeE_ok_inv fs vcfPath sampleId stats h
  rw [hfile] at hfile'
  obtain rfl := Option.some.inj hfile'
  have hm := scan_maxQual sampleId file.records initState st hscan
  simp only [initState] at hm
  refine ⟨h4.trans hm, ?_, ?_⟩
  · intro q hq
    rw [h4, hm]
    exact mem_le_foldl_max _ 0 q hq
  · rw [h4, hm]
    exact foldl_max_eq_or_mem _ 0

/-- Witness for claim C6 at a concrete file and sample. -/
theorem claim_max_quality_witness :
    exStatsA.max_quality = (retainedQuals "A" exFile.records).foldl max 0 ∧
    (∀ q ∈ retainedQuals "A" exFile.records, q ≤ exStatsA.max_quality) ∧
    (exStatsA.max_quality = 0 ∨
      exStatsA.max_quality ∈ retainedQuals "A" exFile.records) :=
  claim_max_quality exFS "data.vcf" "A" exFile exStatsA rfl rfl

/-- Claim C8: the analysis is a pure function of the file-system snapshot,
the path and the sample identifier — two invocations on identical inputs
return identical summaries; the embedding holds no state across calls. -/
theorem claim_deterministic (fs1 fs2 : FS) (p1 p2 s1 s2 : String)
    (hfs : fs1 = fs2) (hp : p1 = p2) (hs : s1 = s2) :
    analyze_sample_genome fs1 p1 s1 = analyze_sample_genome fs2 p2 s2 := by
  subst hfs; subst hp; subst hs; rfl

/-- Witness for claim C8 at a concrete repeated invocation. -/
theorem claim_deterministic_witness :
    analyze_sample_genome exFS "data.vcf" "A" =
      analyze_sample_genome exFS "data.vcf" "A" :=
  claim_deterministic exFS exFS "data.vcf" "data.vcf" "A" "A" rfl rfl rfl

/-- Claim C9: a retained variant call above the quality threshold whose
alternate-allele list is empty makes `record.ALT[0]` raise; the blanket
handler returns `None`, discarding every count accumulated so far. -/
theorem claim_empty_alt_aborts (fs : FS) (vcfPath sampleId : String)
    (file : VCFFile) (r : Record) (call : Call)
    (hfile : fs.lookupFile vcfPath = some file)
    (hr : Except.ok r ∈ file.records)
    (hcall : r.callForSample sampleId = some call)
    (hvar : call.is_variant = true)
    (hq : r.effQual > 20)
    (halt : r.ALT = []) :
    analyze_sample_genome fs vcfPath sampleId = none := by
  unfold analyze_sample_genome
  cases hres : analyzeE fs vcfPath sampleId with
  | error e => rfl
  | ok stats =>
    exfalso
    obtain ⟨file', st, hfile', hmem, hscan, _⟩ :=
      analyzeE_ok_inv fs vcfPath sampleId stats hres
    rw [hfile] at hfile'
    obtain rfl := Option.some.inj hfile'
    exact scan_mem_bad sampleId file.records (Except.ok r) hr
      (step_emptyAlt sampleId r call hcall hvar hq halt) initState st hscan

/-- Witness for claim C9 at a concrete aborting file. -/
theorem claim_empty_alt_aborts_witness :
    analyze_sample_genome exFSBad "bad.vcf" "A" = none :=
  claim_empty_alt_aborts exFSBad "bad.vcf" "A" exFileBad exRecBad
    { is_variant := true, is_het := true } rfl (by decide) rfl rfl
    (by decide) rfl

/-- Claim C10: every failure path hands the caller the same value `None`,
so two failing invocations — whatever their error kinds — are
indistinguishable from the returned value alone. -/
theorem claim_failures_indistinct (fs1 fs2 : FS) (p1 p2 s1 s2 : String)
    (e1 e2 : Failure)
    (h1 : analyzeE fs1 p1 s1 = .error e1)
    (h2 : analyzeE fs2 p2 s2 = .error e2) :
    analyze_sample_genome fs1 p1 s1 = analyze_sample_genome fs2 p2 s2 := by
  unfold analyze_sample_genome
  rw [h1, h2]
  rfl

/-- Witness for claim C10: a missing-file failure and an unknown-sample
failure return the same value. -/
theorem claim_failures_indistinct_witness :
    analyze_sample_genome exFS "missing.vcf" "A" =
      analyze_sample_genome exFS "data.vcf" "Z" :=
  claim_failures_indistinct exFS exFS "missing.vcf" "data.vcf" "A" "Z"
    .NotFound .UnknownSample (by decide) (by decide)
